import Mathlib

/-!
Shallow embedding of the inner-rag ingestion/query pipeline.

Sources embedded here:
- `src/rag/api/views.py` (`slack_events` event dedup cache, `index_document`,
  `handle_app_mention` with its file / URL / question branches);
- `src/rag/services/document_service.py` (`DocumentService.extract_text`,
  `_extract_from_pdf`, `_extract_from_docx`, `_extract_from_excel`,
  `_extract_from_html` text-shaping step, `chunk_text`).

External collaborators (Slack client, OpenAI client, Azure Search client,
HTTP fetching, and the PyPDF2 / python-docx / pandas / BeautifulSoup parsing
libraries) are modelled as oracles bundled in an `Env` record; the code under
`src/` that consumes their results is translated faithfully.  Python strings
are modelled as `List Char` or `String` (ASCII character classes are used for
the regex classes `\s`, `\w`, `[A-Z0-9]`, matching the ASCII inputs the claims
quantify over), bytes as `List Nat`, and the side effects of the handler are
reified as a trace of `Act`s in the order the code performs them.
-/

/-- Python whitespace class: the characters matched by the regex class
    `\s` and stripped by `str.strip()` (ASCII range). -/
def pyIsSpace (c : Char) : Bool :=
  c == ' ' || c == '\t' || c == '\n' || c == '\r' || c == '\x0B' || c == '\x0C'

/-- Does the second list start with the first one? -/
def startsWithL : List Char → List Char → Bool
  | [], _ => true
  | _ :: _, [] => false
  | p :: ps, c :: cs => p == c && startsWithL ps cs

/-- Python substring containment `pat in s`. -/
def containsSub : List Char → List Char → Bool
  | [], pat => pat.isEmpty
  | c :: t, pat => startsWithL pat (c :: t) || containsSub t pat

/-- Python `pat in s` on strings. -/
def strContains (s pat : String) : Bool := containsSub s.data pat.data

/-- Python `str.strip()`: drop leading and trailing whitespace. -/
def pyStrip (cs : List Char) : List Char :=
  ((cs.dropWhile pyIsSpace).reverse.dropWhile pyIsSpace).reverse

/-- Character class `[A-Z0-9]` of the bot-mention regex in
    `handle_app_mention` (`views.py` line 271). -/
def isMentionChar (c : Char) : Bool :=
  ('A' ≤ c && c ≤ 'Z') || ('0' ≤ c && c ≤ '9')

/-- Length of a match of the regex `<@[A-Z0-9]+>` anchored at the head of the
    list, if any (the `+` is greedy and must be followed by `>`). -/
def mentionLen (cs : List Char) : Option Nat :=
  match cs with
  | '<' :: '@' :: rest =>
    let k := (rest.takeWhile isMentionChar).length
    if 0 < k && rest.get? k == some '>' then some (k + 3) else none
  | _ => none

/-- One pass of `re.sub(r"<@[A-Z0-9]+>", "", text)` (`views.py` line 271):
    scan left to right, deleting every non-overlapping match.  The fuel is an
    artifact of the embedding; every step consumes at least one character, so
    fuel `cs.length` (as supplied by `removeMentions`) never runs out. -/
def removeMentionsAux : Nat → List Char → List Char
  | _, [] => []
  | 0, rest => rest
  | fuel + 1, c :: t =>
    match mentionLen (c :: t) with
    | some n => removeMentionsAux fuel ((c :: t).drop n)
    | none => c :: removeMentionsAux fuel t

/-- `re.sub(r"<@[A-Z0-9]+>", "", text)`. -/
def removeMentions (cs : List Char) : List Char :=
  removeMentionsAux cs.length cs

/-- `re.sub(r"<@[A-Z0-9]+>", "", text).strip()` — the question text computed
    by the question branch of `handle_app_mention` (`views.py` line 271). -/
def questionOf (text : String) : String :=
  String.mk (pyStrip (removeMentions text.data))

/-- Character class `[^\s<>]` of the URL regex in `handle_app_mention`
    (`views.py` line 226). -/
def urlRunChar (c : Char) : Bool := !(pyIsSpace c || c == '<' || c == '>')

/-- `re.findall(r"(https?://[^\s<>]+)", text)` (`views.py` line 226): scan
    left to right for non-overlapping matches of `https?://` followed by a
    non-empty maximal run of `[^\s<>]` characters.  Fuel as in
    `removeMentionsAux`: each step consumes at least one character. -/
def findUrlsAux : Nat → List Char → List (List Char)
  | _, [] => []
  | 0, _ => []
  | fuel + 1, c :: t =>
    let s := c :: t
    if startsWithL "https://".data s then
      let run := (s.drop 8).takeWhile urlRunChar
      if run.isEmpty then findUrlsAux fuel t
      else ("https://".data ++ run) :: findUrlsAux fuel ((s.drop 8).dropWhile urlRunChar)
    else if startsWithL "http://".data s then
      let run := (s.drop 7).takeWhile urlRunChar
      if run.isEmpty then findUrlsAux fuel t
      else ("http://".data ++ run) :: findUrlsAux fuel ((s.drop 7).dropWhile urlRunChar)
    else findUrlsAux fuel t

/-- `re.findall(r"(https?://[^\s<>]+)", text)`. -/
def findUrls (cs : List Char) : List (List Char) := findUrlsAux cs.length cs

/-- Character class `[\w/:\.-]` (ASCII) used when trimming one trailing
    symbol from a matched URL (`views.py` line 230). -/
def urlTailChar (c : Char) : Bool :=
  c.isAlphanum || c == '_' || c == '/' || c == ':' || c == '.' || c == '-'

/-- `re.sub(r"[^\w/:\.-]$", "", url)` (`views.py` line 230): delete the final
    character when it is outside the class `[\w/:\.-]`. -/
def cleanUrl (u : List Char) : List Char :=
  match u.getLast? with
  | none => u
  | some c => if urlTailChar c then u else u.dropLast

/-- Replace every maximal run of characters satisfying `p` by the single
    character `rep`; this is `re.sub(p_class + "+", rep, s)`.  Fuel as in
    `removeMentionsAux`: each step consumes at least one character, so fuel
    `cs.length` never runs out. -/
def collapseAux (p : Char → Bool) (rep : Char) : Nat → List Char → List Char
  | _, [] => []
  | 0, _ => []
  | fuel + 1, c :: rest =>
    if p c then rep :: collapseAux p rep fuel (rest.dropWhile p)
    else c :: collapseAux p rep fuel rest

/-- Replace every maximal run of `p`-characters by `rep`. -/
def collapseRuns (p : Char → Bool) (rep : Char) (cs : List Char) : List Char :=
  collapseAux p rep cs.length cs

/-- The two text-shaping substitutions of `_extract_from_html`
    (`document_service.py` lines 207-209):
    `re.sub(r"\s+", " ", s)` followed by `re.sub(r"\n+", "\n", s)`. -/
def htmlCollapse (cs : List Char) : List Char :=
  collapseRuns (fun c => c == '\n') '\n' (collapseRuns pyIsSpace ' ' cs)

/-- Output assembly of `_extract_from_html` (`document_service.py` lines
    181-211): the BeautifulSoup parsing and main-content selection are
    external-library work, so the already-selected body text and the title
    (`None` when the document has no `<title>` element) are inputs here;
    the function applies the two whitespace substitutions and prepends the
    `Title:` / `URL:` header lines. -/
def htmlFormat (title : Option String) (url body : String) : String :=
  "Title: " ++ title.getD "No Title" ++ "\n\nURL: " ++ url ++ "\n\n"
    ++ String.mk (htmlCollapse body.data)

/-- Modelled from the spec: collapse each maximal whitespace run to one
    newline when the run contains a newline and to one space otherwise, so
    that runs of whitespace become one space and runs of newlines become one
    newline (spec section 4.2, html: the body `a\n\nb` must yield `a\nb`). -/
def specCollapseAux : Nat → List Char → List Char
  | _, [] => []
  | 0, _ => []
  | fuel + 1, c :: rest =>
    if pyIsSpace c then
      (if (c :: rest.takeWhile pyIsSpace).any (fun x => x == '\n') then '\n' else ' ')
        :: specCollapseAux fuel (rest.dropWhile pyIsSpace)
    else c :: specCollapseAux fuel rest

/-- Modelled from the spec: whitespace collapse as the spec words it. -/
def specCollapse (cs : List Char) : List Char := specCollapseAux cs.length cs

/-- Modelled from the spec: HTML extraction output as the spec words it. -/
def specHtmlFormat (title : Option String) (url body : String) : String :=
  "Title: " ++ title.getD "No Title" ++ "\n\nURL: " ++ url ++ "\n\n"
    ++ String.mk (specCollapse body.data)

/-- Amended collapse: every maximal whitespace run (newline runs included)
    becomes a single space. -/
def amendedCollapseAux : Nat → List Char → List Char
  | _, [] => []
  | 0, _ => []
  | fuel + 1, c :: rest =>
    if pyIsSpace c then ' ' :: amendedCollapseAux fuel (rest.dropWhile pyIsSpace)
    else c :: amendedCollapseAux fuel rest

/-- Amended collapse: every maximal whitespace run becomes one space. -/
def amendedCollapse (cs : List Char) : List Char := amendedCollapseAux cs.length cs

/-- Amended HTML extraction output: headers plus the body with every
    whitespace run collapsed to a single space. -/
def amendedHtmlFormat (title : Option String) (url body : String) : String :=
  "Title: " ++ title.getD "No Title" ++ "\n\nURL: " ++ url ++ "\n\n"
    ++ String.mk (amendedCollapse body.data)

/-- Python slice `l[a:b]` for `0 ≤ a`, `0 ≤ b` (clamping at the ends as
    Python does for in-range nonnegative indices). -/
def listSlice (l : List Char) (a b : Nat) : List Char := (l.take b).drop a

/-- Python `text.find(c, i)`: index of the first occurrence of `c` at
    position `i` or later, `none` standing for Python's `-1`. -/
def findFrom (l : List Char) (c : Char) (i : Nat) : Option Nat :=
  ((l.drop i).findIdx? (fun x => x == c)).map (· + i)

/-- Boundary adjustment of `DocumentService.chunk_text`
    (`document_service.py` lines 238-249): when the tentative end `e` does
    not land on a space and is not at the very end, move it past the next
    newline if that comes before the next space, else past the next space,
    else leave it. -/
def adjustEnd (text : List Char) (e : Nat) : Nat :=
  if text.get? e != some ' ' && e + 1 < text.length then
    match findFrom text '\n' e, findFrom text ' ' e with
    | some n, none => n + 1
    | some n, some s => if n < s then n + 1 else s + 1
    | none, some s => s + 1
    | none, none => e
  else e

/-- The `while start < len(text)` loop of `chunk_text`
    (`document_service.py` lines 229-255).  One fuel unit per iteration;
    `none` marks fuel exhaustion, i.e. a run of the Python loop that has not
    terminated within the given number of iterations. -/
def chunkLoop : Nat → List Char → Nat → Nat → Nat → Option (List (List Char))
  | 0, _, _, _, _ => none
  | fuel + 1, text, chunkSize, overlap, start =>
    if start < text.length then
      let e := start + chunkSize
      if text.length ≤ e then some [text.drop start]
      else
        let e2 := adjustEnd text e
        match chunkLoop fuel text chunkSize overlap (e2 - overlap) with
        | none => none
        | some rest => some (listSlice text start e2 :: rest)
    else some []

/-- `DocumentService.chunk_text` (`document_service.py` lines 216-257).
    The loop advances `start` by at least one position per iteration whenever
    `overlap < chunk_size`, so fuel `text.length + 1` suffices for every
    terminating run; `none` is the image of the diverging runs. -/
def chunk_text (text : List Char) (chunkSize overlap : Nat) : Option (List (List Char)) :=
  if text.length ≤ chunkSize then some [text]
  else chunkLoop (text.length + 1) text chunkSize overlap 0

/-- One pass of the dedup check in `slack_events` (`views.py` lines
    117-134) for an event that carries an `event_id`: the cache is the
    insertion-ordered key list of `slack_events.processed_events`.  Result:
    (should the event be processed, cache afterwards).  A present id is
    skipped; a fresh id is appended and, when the size then exceeds 1000,
    the first-inserted key is evicted. -/
def dedupStep (cache : List String) (eid : String) : Bool × List String :=
  if eid ∈ cache then (false, cache)
  else
    let c := cache ++ [eid]
    if 1000 < c.length then (true, c.tail) else (true, c)

/-- Cache after feeding a sequence of event ids through `dedupStep`. -/
def dedupRun (cache : List String) (ids : List String) : List String :=
  ids.foldl (fun c e => (dedupStep c e).2) cache

/-- A family of pairwise-distinct event ids, used to instantiate the
    dedup theorems. -/
def idOf (n : Nat) : String := String.mk (List.replicate n 'a')

/-- `descIds n = [idOf (n-1), ..., idOf 0]`: n pairwise-distinct event ids. -/
def descIds : Nat → List String
  | 0 => []
  | n + 1 => idOf n :: descIds n

/-- Reduce modulo 2^32. -/
def m32 (n : Nat) : Nat := n % 4294967296

/-- 32-bit left rotation (argument assumed < 2^32). -/
def rotl32 (x s : Nat) : Nat := m32 (x <<< s) ||| (x >>> (32 - s))

/-- 32-bit bitwise complement. -/
def not32 (x : Nat) : Nat := Nat.xor x 4294967295

/-- The MD5 sine-derived constant table K (RFC 1321). -/
def md5K : List Nat :=
  [3614090360, 3905402710, 606105819, 3250441966,
   4118548399, 1200080426, 2821735955, 4249261313,
   1770035416, 2336552879, 4294925233, 2304563134,
   1804603682, 4254626195, 2792965006, 1236535329,
   4129170786, 3225465664, 643717713, 3921069994,
   3593408605, 38016083, 3634488961, 3889429448,
   568446438, 3275163606, 4107603335, 1163531501,
   2850285829, 4243563512, 1735328473, 2368359562,
   4294588738, 2272392833, 1839030562, 4259657740,
   2763975236, 1272893353, 4139469664, 3200236656,
   681279174, 3936430074, 3572445317, 76029189,
   3654602809, 3873151461, 530742520, 3299628645,
   4096336452, 1126891415, 2878612391, 4237533241,
   1700485571, 2399980690, 4293915773, 2240044497,
   1873313359, 4264355552, 2734768916, 1309151649,
   4149444226, 3174756917, 718787259, 3951481745]

/-- The MD5 per-round left-rotation amounts (RFC 1321). -/
def md5S : List Nat :=
  [7, 12, 17, 22, 7, 12, 17, 22, 7, 12, 17, 22, 7, 12, 17, 22,
   5, 9, 14, 20, 5, 9, 14, 20, 5, 9, 14, 20, 5, 9, 14, 20,
   4, 11, 16, 23, 4, 11, 16, 23, 4, 11, 16, 23, 4, 11, 16, 23,
   6, 10, 15, 21, 6, 10, 15, 21, 6, 10, 15, 21, 6, 10, 15, 21]

/-- One of the 64 MD5 operations, on state (a, b, c, d) with message words
    `w` (16 little-endian 32-bit words of the current block). -/
def md5Op (w : List Nat) (st : Nat × Nat × Nat × Nat) (i : Nat) : Nat × Nat × Nat × Nat :=
  let (a, b, c, d) := st
  let f :=
    if i < 16 then (b &&& c) ||| (not32 b &&& d)
    else if i < 32 then (d &&& b) ||| (not32 d &&& c)
    else if i < 48 then Nat.xor b (Nat.xor c d)
    else Nat.xor c (b ||| not32 d)
  let g :=
    if i < 16 then i
    else if i < 32 then (5 * i + 1) % 16
    else if i < 48 then (3 * i + 5) % 16
    else (7 * i) % 16
  let sum := m32 (a + f + md5K.getD i 0 + w.getD g 0)
  (d, m32 (b + rotl32 sum (md5S.getD i 0)), b, c)

/-- The 16 little-endian 32-bit words of one 64-byte block. -/
def md5Words (block : List Nat) : List Nat :=
  (List.range 16).map (fun j =>
    block.getD (4 * j) 0 + 256 * block.getD (4 * j + 1) 0
      + 65536 * block.getD (4 * j + 2) 0 + 16777216 * block.getD (4 * j + 3) 0)

/-- Process one 64-byte block: run the 64 operations and add the result into
    the running state, all modulo 2^32. -/
def md5Block (st : Nat × Nat × Nat × Nat) (block : List Nat) : Nat × Nat × Nat × Nat :=
  let (a0, b0, c0, d0) := st
  let (a, b, c, d) := (List.range 64).foldl (md5Op (md5Words block)) st
  (m32 (a0 + a), m32 (b0 + b), m32 (c0 + c), m32 (d0 + d))

/-- MD5 padding: append the 0x80 byte, zero-pad to 56 mod 64, then append
    the original length in bits as 8 little-endian bytes. -/
def md5Pad (msg : List Nat) : List Nat :=
  msg ++ [128] ++ List.replicate ((120 - (msg.length + 1) % 64) % 64) 0
    ++ (List.range 8).map (fun j => ((8 * msg.length) >>> (8 * j)) % 256)

/-- The MD5 state after absorbing a byte sequence. -/
def md5Digest (msg : List Nat) : Nat × Nat × Nat × Nat :=
  let padded := md5Pad msg
  ((List.range (padded.length / 64)).map
    (fun i => (padded.drop (64 * i)).take 64)).foldl md5Block
    (1732584193, 4023233417, 2562383102, 271733878)

/-- Lower-case hex digit. -/
def hexDigit (n : Nat) : Char :=
  if n < 10 then Char.ofNat (48 + n) else Char.ofNat (87 + n)

/-- Two lower-case hex digits of one byte. -/
def byteHex (b : Nat) : List Char := [hexDigit (b / 16), hexDigit (b % 16)]

/-- Hex rendering of one 32-bit word, least-significant byte first (the byte
    order used by `hashlib.md5(...).hexdigest()`). -/
def wordHexLE (w : Nat) : List Char :=
  byteHex (w % 256) ++ byteHex ((w >>> 8) % 256) ++ byteHex ((w >>> 16) % 256)
    ++ byteHex ((w >>> 24) % 256)

/-- `hashlib.md5(bytes).hexdigest()`. -/
def md5Hex (msg : List Nat) : String :=
  let (a, b, c, d) := md5Digest msg
  String.mk (wordHexLE a ++ wordHexLE b ++ wordHexLE c ++ wordHexLE d)

/-- UTF-8 encoding of one character (Python `str.encode()`). -/
def utf8Char (c : Char) : List Nat :=
  let n := c.toNat
  if n < 128 then [n]
  else if n < 2048 then [192 ||| (n >>> 6), 128 ||| (n &&& 63)]
  else if n < 65536 then
    [224 ||| (n >>> 12), 128 ||| ((n >>> 6) &&& 63), 128 ||| (n &&& 63)]
  else
    [240 ||| (n >>> 18), 128 ||| ((n >>> 12) &&& 63),
     128 ||| ((n >>> 6) &&& 63), 128 ||| (n &&& 63)]

/-- Python `s.encode()`: UTF-8 bytes of a string. -/
def utf8Bytes (s : String) : List Nat := s.data.flatMap utf8Char

/-- The document id for URL ingestion (`views.py` lines 246-247):
    `hashlib.md5(url.encode()).hexdigest()`. -/
def urlDocId (url : String) : String := md5Hex (utf8Bytes url)

/-- Python `str.lower()` on ASCII characters. -/
def pyCharLower (c : Char) : Char :=
  if 'A' ≤ c && c ≤ 'Z' then Char.ofNat (c.toNat + 32) else c

/-- Python `str.lower()` (ASCII range). -/
def pyLower (s : String) : String := String.mk (s.data.map pyCharLower)

/-- A search hit as shaped by `SearchService.search_documents`
    (`search_service.py` lines 70-80).  The relevance score is a float in
    the source; only its presence matters here, so it is carried as an
    integer stand-in. -/
structure SearchResult where
  id : String
  content : String
  source : String
  ty : String
  score : Int
deriving DecidableEq

/-- The document record submitted to the index by `index_document`
    (`views.py` lines 59-67). -/
structure IndexedDoc where
  id : String
  content : String
  embedding : List Int
  source : String
  ty : String
deriving DecidableEq

/-- One attachment of a mention event (`views.py` lines 169-171). -/
structure FileInfo where
  id : String
  name : String
  filetype : String
deriving DecidableEq

/-- A mention event as read by `handle_app_mention`
    (`views.py` lines 153-158). -/
structure Event where
  text : String
  channel : String
  ts : String
  files : List FileInfo
deriving DecidableEq

/-- An observable effect of the handler, in program order: a Slack message
    post, a Slack file download, an embedding request, a vector search, an
    index upsert, or a URL content fetch. -/
inductive Act where
  | post (text : String)
  | download (fileId : String)
  | embed (text : String)
  | search (topK : Nat)
  | indexDoc (d : IndexedDoc)
  | fetch (url : String)
deriving DecidableEq

/-- Oracles for the external collaborators.  `download`, `createEmbedding`,
    `generateAnswer` and `fetchUrl` return the value the corresponding
    service method returns (`none` for Python `None`); `pdfParse`,
    `docxParse` and `excelParse` stand for the PyPDF2 / python-docx / pandas
    parsing steps, `Except.error` meaning the library raised.  `pdfParse`
    yields the per-page `extract_text()` results, `docxParse` the paragraph
    texts and the table cell texts (tables, then rows, then cells),
    `excelParse` the (sheet name, `to_string` rendering) pairs. -/
structure Env where
  download : String → Option (List Nat)
  pdfParse : List Nat → Except String (List String)
  docxParse : List Nat → Except String (List String × List (List (List String)))
  excelParse : List Nat → Except String (List (String × String))
  createEmbedding : String → Option (List Int)
  searchDocuments : List Int → Nat → List SearchResult
  generateAnswer : String → String → Option String
  indexDocument : IndexedDoc → Bool
  fetchUrl : String → Option String

/-- `DocumentService.extract_text` (`document_service.py` lines 23-122)
    together with the private extractors it dispatches to.  A library
    exception in the pdf or docx extractor propagates to the
    `try/except` of `extract_text` and becomes `None`; the excel extractor
    catches its own exceptions and returns the diagnostic string
    `"Error extracting Excel content: <msg>"` instead (lines 120-122; the
    `ImportError` fallback for a missing pandas is environment-dependent,
    not a property of the bytes, and is not modelled).  On success: pdf
    joins the non-empty page texts with blank lines; docx joins the
    non-empty paragraph texts and one `" | "`-joined line per table row with
    non-empty cells; excel emits a `Sheet: <name>` header plus the rendering
    for each sheet, joined with blank lines. -/
def extract_text (env : Env) (fileContent : List Nat) (fileType : String) : Option String :=
  if fileType ∈ ["pdf"] then
    match env.pdfParse fileContent with
    | .error _ => none
    | .ok pages =>
      some (String.intercalate "\n\n" (pages.filter (fun t => t ≠ "")))
  else if fileType ∈ ["docx", "doc"] then
    match env.docxParse fileContent with
    | .error _ => none
    | .ok (paras, tables) =>
      let paraParts := paras.filter (fun t => t ≠ "")
      let tableParts := tables.flatMap (fun tbl =>
        tbl.filterMap (fun row =>
          let rowTexts := row.filter (fun t => t ≠ "")
          if rowTexts.isEmpty then none
          else some (String.intercalate " | " rowTexts)))
      some (String.intercalate "\n\n" (paraParts ++ tableParts))
  else if fileType ∈ ["xlsx", "xls"] then
    match env.excelParse fileContent with
    | .error e => some ("Error extracting Excel content: " ++ e)
    | .ok sheets =>
      some (String.intercalate "\n\n"
        (sheets.flatMap (fun s => ["Sheet: " ++ s.1, s.2])))
  else none

/-- `index_document` (`views.py` lines 37-84): embed the content; a falsy
    embedding (Python `None` or `[]`) posts the vectorisation-failure notice
    and stops; otherwise submit the document and post the success or
    index-failure notice.  Returns the action trace and the boolean result. -/
def indexDocumentActions (env : Env) (content source docType docId : String) :
    List Act × Bool :=
  match env.createEmbedding content with
  | none => ([.embed content, .post ("テキストのベクトル化に失敗しました: " ++ source)], false)
  | some emb =>
    if emb.isEmpty then
      ([.embed content, .post ("テキストのベクトル化に失敗しました: " ++ source)], false)
    else
      let doc : IndexedDoc := ⟨docId, content, emb, source, docType⟩
      if env.indexDocument doc then
        ([.embed content, .indexDoc doc,
          .post ("ドキュメントをインデックスに追加しました: " ++ source)], true)
      else
        ([.embed content, .indexDoc doc,
          .post ("ドキュメントのインデックス追加に失敗しました: " ++ source)], false)

/-- The list of supported attachment types (`views.py` line 174). -/
def supportedTypes : List String := ["pdf", "docx", "xlsx", "doc", "xls"]

/-- The body of the per-attachment loop of `handle_app_mention`
    (`views.py` lines 168-217): reject unsupported declared types before any
    download; a falsy download (Python `None` or `b""`) posts the download
    failure notice; a falsy extraction result (Python `None` or `""`) posts
    the extraction failure notice; otherwise hand off to `index_document`.
    Each failure ends this file only (`continue`). -/
def processFile (env : Env) (f : FileInfo) : List Act :=
  let fileType := pyLower f.filetype
  if fileType ∉ supportedTypes then
    [.post ("サポートされていないファイル形式です: " ++ f.name)]
  else
    match env.download f.id with
    | none => [.download f.id, .post ("ファイルのダウンロードに失敗しました: " ++ f.name)]
    | some bytes =>
      if bytes.isEmpty then
        [.download f.id, .post ("ファイルのダウンロードに失敗しました: " ++ f.name)]
      else
        match extract_text env bytes fileType with
        | none =>
          [.download f.id, .post ("ファイルからテキストの抽出に失敗しました: " ++ f.name)]
        | some t =>
          if t = "" then
            [.download f.id, .post ("ファイルからテキストの抽出に失敗しました: " ++ f.name)]
          else .download f.id :: (indexDocumentActions env t f.name fileType f.id).1

/-- The body of the per-URL loop of `handle_app_mention` (`views.py` lines
    234-259): fetch the URL content (a falsy result — Python `None` or `""`
    — posts the fetch-failure notice and ends this URL), then hand off to
    `index_document` with the md5 hex digest of the URL as document id. -/
def ingestUrl (env : Env) (url : String) : List Act :=
  match env.fetchUrl url with
  | none => [.fetch url, .post ("URLからコンテンツの取得に失敗しました: " ++ url)]
  | some content =>
    if content = "" then
      [.fetch url, .post ("URLからコンテンツの取得に失敗しました: " ++ url)]
    else .fetch url :: (indexDocumentActions env content url "url" (urlDocId url)).1

/-- Context assembly of the question branch (`views.py` lines 307-312):
    starting at rank 1, append one block per search result. -/
def contextFrom : Nat → List SearchResult → String
  | _, [] => ""
  | i, r :: rest =>
    "[" ++ toString i ++ "] " ++ r.content ++ "\n\n出典: " ++ r.source ++ "\n\n"
      ++ contextFrom (i + 1) rest

/-- The assembled context string for a result list (`views.py` lines
    307-312). -/
def buildContext (results : List SearchResult) : String := contextFrom 1 results

/-- The question branch of `handle_app_mention` (`views.py` lines 269-327):
    strip the bot mention and whitespace; stop with a notice when the
    question is empty, when embedding fails, when the search is empty or
    when generation fails; otherwise post the generated answer. -/
def questionBranch (env : Env) (text : String) : List Act :=
  let question := questionOf text
  if question = "" then [.post "質問が空です。何について知りたいですか？"]
  else
    match env.createEmbedding question with
    | none => [.embed question, .post "質問のベクトル化に失敗しました。もう一度試してください。"]
    | some emb =>
      if emb.isEmpty then
        [.embed question, .post "質問のベクトル化に失敗しました。もう一度試してください。"]
      else
        let results := env.searchDocuments emb 3
        if results.isEmpty then
          [.embed question, .search 3, .post "関連する情報が見つかりませんでした。"]
        else
          let context := buildContext results
          match env.generateAnswer question context with
          | none =>
            [.embed question, .search 3, .post "回答の生成に失敗しました。もう一度試してください。"]
          | some answer =>
            if answer = "" then
              [.embed question, .search 3, .post "回答の生成に失敗しました。もう一度試してください。"]
            else [.embed question, .search 3, .post answer]

/-- The URL/import branch of `handle_app_mention` (`views.py` lines
    219-266): extract URLs, trim one trailing symbol from each; when any
    remain, ingest each one; otherwise post the no-valid-URL notice only
    when the text contains `import rag` case-insensitively. -/
def urlBranch (env : Env) (text : String) : List Act :=
  let urls := findUrls text.data
  let cleanUrls := urls.map cleanUrl
  if cleanUrls.isEmpty then
    if strContains (pyLower text) "import rag" then
      [.post "取り込みモードですが、有効なURLが見つかりませんでした。URLを含めてメッセージを送信してください。"]
    else []
  else cleanUrls.flatMap (fun u => ingestUrl env (String.mk u))

/-- `handle_app_mention` (`views.py` lines 147-338): attachments present →
    per-file ingestion; else a text containing `http://`, `https://` or
    (case-insensitively) `import rag` → URL ingestion; else the question
    branch. -/
def handleAppMention (env : Env) (ev : Event) : List Act :=
  if ev.files.isEmpty then
    if strContains ev.text "http://" || strContains ev.text "https://"
        || strContains (pyLower ev.text) "import rag" then
      urlBranch env ev.text
    else questionBranch env ev.text
  else ev.files.flatMap (processFile env)

/-- An inert environment: every collaborator fails or returns nothing. -/
def trivEnv : Env where
  download _ := none
  pdfParse _ := .error ""
  docxParse _ := .error ""
  excelParse _ := .error ""
  createEmbedding _ := none
  searchDocuments _ _ := []
  generateAnswer _ _ := none
  indexDocument _ := false
  fetchUrl _ := none

/-- Modelled from the spec: the context string the spec's query section
    describes, one block per ranked result starting at rank 1, with the
    literal label `Source: `. -/
def specContext (results : List SearchResult) : String :=
  (results.enumFrom 1).foldr
    (fun p acc =>
      "[" ++ toString p.1 ++ "] " ++ p.2.content ++ "\n\nSource: " ++ p.2.source ++ "\n\n" ++ acc)
    ""

/-- Amended context: the same block shape with the label the code actually
    emits, `出典: ` (Japanese for Source). -/
def amendedContext (results : List SearchResult) : String :=
  (results.enumFrom 1).foldr
    (fun p acc =>
      "[" ++ toString p.1 ++ "] " ++ p.2.content ++ "\n\n出典: " ++ p.2.source ++ "\n\n" ++ acc)
    ""

lemma contextFrom_eq_foldr (rs : List SearchResult) : ∀ i, contextFrom i rs =
    (rs.enumFrom i).foldr
      (fun p acc =>
        "[" ++ toString p.1 ++ "] " ++ p.2.content ++ "\n\n出典: " ++ p.2.source ++ "\n\n" ++ acc)
      "" := by
  induction rs with
  | nil => intro i; rfl
  | cons r t ih => intro i; simp only [contextFrom, List.enumFrom, List.foldr, ih (i + 1)]

/-- C9: for every text with `len(T) <= chunk_size`, `chunk_text` returns
    exactly one chunk, equal to the whole text. -/
theorem c9_short_text_single_chunk (text : List Char) (chunkSize overlap : Nat)
    (h : text.length ≤ chunkSize) : chunk_text text chunkSize overlap = some [text] := by
  simp [chunk_text, h]

/-- Witness for C9 at a concrete input. -/
theorem c9_witness : chunk_text ['a', 'b', 'c'] 5 2 = some [['a', 'b', 'c']] :=
  c9_short_text_single_chunk ['a', 'b', 'c'] 5 2 (by decide)

/-- C4 fails as stated: at a concrete non-empty result list the assembled
    context uses the label `出典: `, not the claimed literal `Source: `. -/
theorem c4_counterexample :
    buildContext [⟨"i", "c", "s", "t", 0⟩] ≠ specContext [⟨"i", "c", "s", "t", 0⟩]
      ∧ ([⟨"i", "c", "s", "t", 0⟩] : List SearchResult) ≠ [] := by
  constructor
  · decide
  · decide

/-- C4 (amended): for every non-empty result list the assembled context is
    the concatenation, for ranks starting at 1, of the blocks
    `"[<rank>] <content>\n\n出典: <source>\n\n"` — the label is the Japanese
    `出典: `, not the literal `Source: `. -/
theorem c4_context_assembly (results : List SearchResult) (h : results ≠ []) :
    buildContext results = amendedContext results := by
  simpa [buildContext, amendedContext] using contextFrom_eq_foldr results 1

/-- Witness for C4's amended theorem at a concrete input. -/
theorem c4_witness :
    buildContext [⟨"i", "c", "s", "t", 0⟩] = amendedContext [⟨"i", "c", "s", "t", 0⟩] :=
  c4_context_assembly [⟨"i", "c", "s", "t", 0⟩] (by decide)

lemma collapseAux_no_newline : ∀ (fuel : Nat) (cs : List Char),
    '\n' ∉ collapseAux pyIsSpace ' ' fuel cs := by
  intro fuel
  induction fuel with
  | zero => intro cs; cases cs <;> simp [collapseAux]
  | succ n ih =>
    intro cs
    cases cs with
    | nil => simp [collapseAux]
    | cons c rest =>
      by_cases hc : pyIsSpace c
      · simp only [collapseAux, hc, if_true, List.mem_cons]
        rintro (h | h)
        · exact absurd h.symm (by decide)
        · exact ih _ h
      · simp only [collapseAux, hc, if_false, Bool.false_eq_true, List.mem_cons]
        rintro (h | h)
        · subst h; exact hc (by decide)
        · exact ih _ h

lemma collapseAux_newline_id : ∀ (fuel : Nat) (l : List Char), '\n' ∉ l →
    l.length ≤ fuel → collapseAux (fun c => c == '\n') '\n' fuel l = l := by
  intro fuel
  induction fuel with
  | zero =>
    intro l _ hlen
    have : l = [] := List.eq_nil_of_length_eq_zero (Nat.le_zero.mp hlen)
    simp [this, collapseAux]
  | succ n ih =>
    intro l hmem hlen
    cases l with
    | nil => simp [collapseAux]
    | cons c rest =>
      have hc : (c == '\n') = false := by
        simp only [beq_eq_false_iff_ne, ne_eq]
        intro h; exact hmem (by simp [h])
      simp only [collapseAux, hc, Bool.false_eq_true, if_false, List.cons.injEq, true_and]
      exact ih rest (fun h => hmem (List.mem_cons_of_mem _ h))
        (Nat.le_of_succ_le_succ (by simpa using hlen))

lemma collapseAux_eq_amended : ∀ (fuel : Nat) (cs : List Char),
    collapseAux pyIsSpace ' ' fuel cs = amendedCollapseAux fuel cs := by
  intro fuel
  induction fuel with
  | zero => intro cs; cases cs <;> simp [collapseAux, amendedCollapseAux]
  | succ n ih =>
    intro cs
    cases cs with
    | nil => simp [collapseAux, amendedCollapseAux]
    | cons c rest =>
      by_cases hc : pyIsSpace c
      · simp [collapseAux, amendedCollapseAux, hc, ih]
      · simp [collapseAux, amendedCollapseAux, hc, ih]

/-- C5 fails as stated: on the body `a\n\nb` the code's HTML text shaping
    yields `a b` (the whitespace pass has already turned the newlines into
    spaces, so the newline pass finds nothing), not the `a\nb` the claim
    requires. -/
theorem c5_counterexample :
    htmlFormat (some "t") "u" "a\n\nb" ≠ specHtmlFormat (some "t") "u" "a\n\nb" := by
  decide

/-- C5 (amended): the extracted text is the `Title:` and `URL:` header lines
    followed by the selected body text in which every maximal run of
    whitespace — newline runs included — is collapsed to a single space;
    the newline-collapsing pass is a no-op because the whitespace pass has
    already removed every newline (so a body `a\n\nb` yields `a b`). -/
theorem c5_html_collapse (title : Option String) (url body : String) :
    htmlFormat title url body = amendedHtmlFormat title url body := by
  have h1 : htmlCollapse body.data = collapseRuns pyIsSpace ' ' body.data := by
    unfold htmlCollapse collapseRuns
    exact collapseAux_newline_id _ _ (collapseAux_no_newline _ _) le_rfl
  unfold htmlFormat amendedHtmlFormat
  rw [h1]
  unfold collapseRuns amendedCollapse
  rw [collapseAux_eq_amended]

/-- C10: a mention event with no attachments whose text contains
    `http://` or `https://`, from which the URL scanner extracts no match,
    and which does not contain `import rag` case-insensitively, takes the
    URL branch and falls through it with no action at all: no notification,
    no embedding, no search, no index call, no fetch. -/
theorem c10_silent_url_branch (env : Env) (ev : Event) (hf : ev.files = [])
    (hhttp : strContains ev.text "http://" = true ∨ strContains ev.text "https://" = true)
    (hurls : findUrls ev.text.data = [])
    (himport : strContains (pyLower ev.text) "import rag" = false) :
    handleAppMention env ev = [] := by
  unfold handleAppMention
  rw [hf]
  have hcond : (strContains ev.text "http://" || strContains ev.text "https://"
      || strContains (pyLower ev.text) "import rag") = true := by
    rcases hhttp with h | h <;> simp [h]
  simp only [List.isEmpty_nil, if_true, hcond]
  unfold urlBranch
  simp [hurls, himport]

/-- Witness for C10: the text `http://` contains the scheme substring but
    the regex needs at least one following `[^\s<>]` character, so the
    scanner finds nothing and the handler does nothing. -/
theorem c10_witness : handleAppMention trivEnv ⟨"http://", "c", "t", []⟩ = [] :=
  c10_silent_url_branch trivEnv ⟨"http://", "c", "t", []⟩ rfl (Or.inl (by decide))
    (by decide) (by decide)

/-- C6: for a mention event with no attachments and no URL or import-rag
    trigger, the question is the raw text with the bot-mention tokens
    removed and surrounding whitespace stripped (`questionOf`); when that is
    empty the handler posts exactly the one empty-question notice and makes
    no embedding call. -/
theorem c6_empty_question (env : Env) (ev : Event) (hf : ev.files = [])
    (h1 : strContains ev.text "http://" = false)
    (h2 : strContains ev.text "https://" = false)
    (h3 : strContains (pyLower ev.text) "import rag" = false)
    (hq : questionOf ev.text = "") :
    handleAppMention env ev = [Act.post "質問が空です。何について知りたいですか？"]
      ∧ ∀ s, Act.embed s ∉ handleAppMention env ev := by
  have hmain : handleAppMention env ev = [Act.post "質問が空です。何について知りたいですか？"] := by
    unfold handleAppMention
    rw [hf]
    simp only [List.isEmpty_nil, if_true, h1, h2, h3, Bool.or_self, Bool.or_false,
      Bool.false_eq_true, if_false]
    unfold questionBranch
    simp [hq]
  exact ⟨hmain, fun s => by rw [hmain]; simp⟩

/-- Witness for C6: a text that is one bot-mention token strips to the empty
    question. -/
theorem c6_witness :
    handleAppMention trivEnv ⟨"<@U0A1B>", "c", "t", []⟩
        = [Act.post "質問が空です。何について知りたいですか？"]
      ∧ Act.embed "" ∉ handleAppMention trivEnv ⟨"<@U0A1B>", "c", "t", []⟩ := by
  have h := c6_empty_question trivEnv ⟨"<@U0A1B>", "c", "t", []⟩ rfl (by decide) (by decide)
    (by decide) (by decide)
  exact ⟨h.1, h.2 ""⟩

/-- C7: an attachment whose lowercased declared filetype is unsupported is
    rejected with the dedicated notice and without any download action, and
    the handler continues with the remaining attachments of the event. -/
theorem c7_unsupported_type (env : Env) (ev : Event) (f : FileInfo) (rest : List FileInfo)
    (hf : ev.files = f :: rest) (h : pyLower f.filetype ∉ supportedTypes) :
    handleAppMention env ev
        = Act.post ("サポートされていないファイル形式です: " ++ f.name)
            :: rest.flatMap (processFile env)
      ∧ ∀ fid, Act.download fid ∉ processFile env f := by
  have hpf : processFile env f = [Act.post ("サポートされていないファイル形式です: " ++ f.name)] := by
    unfold processFile
    simp [h]
  constructor
  · unfold handleAppMention
    rw [hf]
    simp [List.flatMap_cons, hpf]
  · intro fid
    rw [hpf]
    simp

/-- Witness for C7: a `png` attachment is rejected before download and a
    sibling `pdf` attachment is still processed (here its download fails,
    which is the inert environment's answer). -/
theorem c7_witness :
    handleAppMention trivEnv ⟨"", "c", "t", [⟨"F1", "img.png", "png"⟩, ⟨"F2", "d.pdf", "pdf"⟩]⟩
        = Act.post ("サポートされていないファイル形式です: " ++ "img.png")
            :: [⟨"F2", "d.pdf", "pdf"⟩].flatMap (processFile trivEnv)
      ∧ Act.download "F1" ∉ processFile trivEnv ⟨"F1", "img.png", "png"⟩ := by
  have h := c7_unsupported_type trivEnv
    ⟨"", "c", "t", [⟨"F1", "img.png", "png"⟩, ⟨"F2", "d.pdf", "pdf"⟩]⟩
    ⟨"F1", "img.png", "png"⟩ [⟨"F2", "d.pdf", "pdf"⟩] rfl (by decide)
  exact ⟨h.1, h.2 "F1"⟩

/-- An environment in which the excel parser raises, the download succeeds
    and embedding and indexing succeed. -/
def c1Env : Env := { trivEnv with
  excelParse := fun _ => .error "boom",
  download := fun _ => some [0],
  createEmbedding := fun _ => some [1],
  indexDocument := fun _ => true }

/-- C1 fails as stated for the excel types: when the xlsx parser raises,
    `extract_text` returns the truthy diagnostic string
    `"Error extracting Excel content: boom"` instead of a failure value, and
    the caller posts no extraction-failure notice for the file — it embeds
    and indexes the diagnostic text instead. -/
theorem c1_counterexample :
    extract_text c1Env [0] "xlsx" ≠ none
      ∧ Act.post ("ファイルからテキストの抽出に失敗しました: " ++ "a.xlsx")
          ∉ processFile c1Env ⟨"F1", "a.xlsx", "xlsx"⟩
      ∧ Act.embed "Error extracting Excel content: boom"
          ∈ processFile c1Env ⟨"F1", "a.xlsx", "xlsx"⟩
      ∧ Act.indexDoc ⟨"F1", "Error extracting Excel content: boom", [1], "a.xlsx", "xlsx"⟩
          ∈ processFile c1Env ⟨"F1", "a.xlsx", "xlsx"⟩ := by
  refine ⟨by decide, by decide, by decide, by decide⟩

/-- C1 (amended): a parse failure in the pdf or docx/doc extractor makes
    `extract_text` return the failure value `none`, and for such a file the
    caller posts exactly one extraction-failure notice and neither embeds
    nor indexes anything; but a parse failure in the xlsx/xls extractor is
    caught inside the extractor, which returns the truthy diagnostic string
    `"Error extracting Excel content: <msg>"`, so the caller treats it as
    extracted text. -/
theorem c1_extraction_failure (env : Env) (b : List Nat) (ft : String) (f : FileInfo)
    (e : String) :
    (ft = "pdf" → env.pdfParse b = .error e → extract_text env b ft = none)
      ∧ (ft ∈ ["docx", "doc"] → env.docxParse b = .error e → extract_text env b ft = none)
      ∧ (ft ∈ ["xlsx", "xls"] → env.excelParse b = .error e →
          extract_text env b ft = some ("Error extracting Excel content: " ++ e))
      ∧ (env.download f.id = some b → b ≠ [] → pyLower f.filetype ∈ supportedTypes →
          extract_text env b (pyLower f.filetype) = none →
          processFile env f
              = [Act.download f.id,
                 Act.post ("ファイルからテキストの抽出に失敗しました: " ++ f.name)]
            ∧ (∀ s, Act.embed s ∉ processFile env f)
            ∧ (∀ d, Act.indexDoc d ∉ processFile env f)) := by
  refine ⟨?_, ?_, ?_, ?_⟩
  · intro hft hp
    subst hft
    simp [extract_text, hp]
  · intro hft hp
    simp only [List.mem_cons, List.not_mem_nil, or_false] at hft
    rcases hft with hft | hft <;> subst hft <;> simp [extract_text, hp]
  · intro hft hp
    simp only [List.mem_cons, List.not_mem_nil, or_false] at hft
    rcases hft with hft | hft <;> subst hft <;> simp [extract_text, hp]
  · intro hdl hb hsupp hex
    have hmain : processFile env f
        = [Act.download f.id,
           Act.post ("ファイルからテキストの抽出に失敗しました: " ++ f.name)] := by
      unfold processFile
      simp [hsupp, hdl, hb, hex, List.isEmpty_iff]
    exact ⟨hmain, fun s => by rw [hmain]; simp, fun d => by rw [hmain]; simp⟩

/-- An environment in which the pdf parser raises and the download
    succeeds. -/
def c1PdfEnv : Env := { trivEnv with
  pdfParse := fun _ => .error "e1",
  download := fun _ => some [0] }

/-- An environment in which the docx parser raises. -/
def c1DocxEnv : Env := { trivEnv with docxParse := fun _ => .error "e2" }

/-- Witness for C1's amended theorem: each conjunct applied at concrete
    inputs. -/
theorem c1_witness :
    extract_text c1PdfEnv [0] "pdf" = none
      ∧ extract_text c1DocxEnv [0] "doc" = none
      ∧ extract_text c1Env [0] "xlsx" = some ("Error extracting Excel content: " ++ "boom")
      ∧ processFile c1PdfEnv ⟨"F1", "d.pdf", "pdf"⟩
          = [Act.download "F1",
             Act.post ("ファイルからテキストの抽出に失敗しました: " ++ "d.pdf")]
      ∧ Act.embed "x" ∉ processFile c1PdfEnv ⟨"F1", "d.pdf", "pdf"⟩ := by
  have h4 := (c1_extraction_failure c1PdfEnv [0] "pdf" ⟨"F1", "d.pdf", "pdf"⟩ "e1").2.2.2
    rfl (by decide) (by decide) (by decide)
  exact ⟨(c1_extraction_failure c1PdfEnv [0] "pdf" ⟨"F1", "d.pdf", "pdf"⟩ "e1").1 rfl rfl,
    (c1_extraction_failure c1DocxEnv [0] "doc" ⟨"F1", "d.pdf", "pdf"⟩ "e2").2.1
      (by decide) rfl,
    (c1_extraction_failure c1Env [0] "xlsx" ⟨"F1", "d.pdf", "pdf"⟩ "boom").2.2.1
      (by decide) rfl,
    h4.1, h4.2.1 "x"⟩

/-- C8: the document id used for URL ingestion is a pure function of the
    URL string — the md5 hex digest `urlDocId` — so equal URLs always derive
    equal ids (re-ingestion upserts the same `IndexedDocument`), and every
    index submission the per-URL ingestion step makes for a URL carries
    exactly that id. -/
theorem c8_url_id_stable (u1 u2 : String) (h : u1 = u2) :
    urlDocId u1 = urlDocId u2
      ∧ ∀ (env : Env) (d : IndexedDoc), Act.indexDoc d ∈ ingestUrl env u1 →
          d.id = urlDocId u1 := by
  subst h
  refine ⟨rfl, ?_⟩
  intro env d hmem
  unfold ingestUrl at hmem
  cases hfetch : env.fetchUrl u1 with
  | none => rw [hfetch] at hmem; simp at hmem
  | some content =>
    rw [hfetch] at hmem
    by_cases hc : content = ""
    · simp [hc] at hmem
    · simp only [hc, if_false] at hmem
      unfold indexDocumentActions at hmem
      cases hemb : env.createEmbedding content with
      | none => rw [hemb] at hmem; simp at hmem
      | some emb =>
        rw [hemb] at hmem
        by_cases he : emb.isEmpty
        · simp [he] at hmem
        · simp only [he, Bool.false_eq_true, if_false] at hmem
          cases hidx : env.indexDocument ⟨urlDocId u1, content, emb, u1, "url"⟩ <;>
            rw [hidx] at hmem <;> simp at hmem <;> rw [hmem]

/-- An environment in which URL fetch, embedding and indexing all
    succeed. -/
def c8Env : Env := { trivEnv with
  fetchUrl := fun _ => some "c",
  createEmbedding := fun _ => some [1],
  indexDocument := fun _ => true }

/-- Witness for C8 at a concrete URL, with the indexed document the step
    actually submits. -/
theorem c8_witness :
    urlDocId "http://example.com" = urlDocId "http://example.com"
      ∧ (⟨urlDocId "http://example.com", "c", [1], "http://example.com", "url"⟩ : IndexedDoc).id
          = urlDocId "http://example.com" := by
  have h := c8_url_id_stable "http://example.com" "http://example.com" rfl
  refine ⟨h.1, h.2 c8Env _ ?_⟩
  simp [ingestUrl, indexDocumentActions, c8Env, trivEnv]

lemma dedupRun_append_all : ∀ (ids cache : List String), (cache ++ ids).Nodup →
    cache.length + ids.length ≤ 1000 → dedupRun cache ids = cache ++ ids := by
  intro ids
  induction ids with
  | nil => intro cache _ _; simp [dedupRun]
  | cons e rest ih =>
    intro cache hnd hlen
    have hnotmem : e ∉ cache := by
      intro hmem
      exact (List.disjoint_of_nodup_append hnd) hmem (List.mem_cons_self e rest)
    have hstep : dedupStep cache e = (true, cache ++ [e]) := by
      unfold dedupStep
      rw [if_neg hnotmem, if_neg]
      simp only [List.length_append, List.length_cons, List.length_nil]
      simp only [List.length_cons] at hlen
      omega
    have hrw : dedupRun cache (e :: rest) = dedupRun (cache ++ [e]) rest := by
      simp [dedupRun, List.foldl_cons, hstep]
    rw [hrw, ih (cache ++ [e]) (by simpa using hnd) (by simp at hlen ⊢; omega)]
    simp

lemma dedupRun_evict (ids : List String) (hnd : ids.Nodup) (hlen : ids.length = 1001) :
    dedupRun [] ids = ids.tail := by
  have hne : ids ≠ [] := by intro h; rw [h] at hlen; simp at hlen
  have hsplit : ids.dropLast ++ [ids.getLast hne] = ids := List.dropLast_append_getLast hne
  set front := ids.dropLast with hfront
  set lastE := ids.getLast hne with hlast
  have hfl : (front ++ [lastE]).Nodup := by rw [hsplit]; exact hnd
  have hflen : front.length = 1000 := by
    have := List.length_dropLast ids
    rw [← hfront] at this
    omega
  have h1 : dedupRun [] (front ++ [lastE]) = dedupRun (dedupRun [] front) [lastE] := by
    simp [dedupRun, List.foldl_append]
  have h2 : dedupRun [] front = front := by
    have := dedupRun_append_all front [] (by simpa using (List.nodup_append.mp hfl).1)
      (by simp [hflen])
    simpa using this
  have hnotmem : lastE ∉ front := by
    intro hmem
    exact (List.disjoint_of_nodup_append hfl) hmem (List.mem_singleton.mpr rfl)
  have h3 : dedupRun front [lastE] = (front ++ [lastE]).tail := by
    simp only [dedupRun, List.foldl_cons, List.foldl_nil]
    unfold dedupStep
    rw [if_neg hnotmem, if_pos]
    simp [hflen]
  calc dedupRun [] ids = dedupRun [] (front ++ [lastE]) := by rw [hsplit]
    _ = dedupRun (dedupRun [] front) [lastE] := h1
    _ = dedupRun front [lastE] := by rw [h2]
    _ = (front ++ [lastE]).tail := h3
    _ = ids.tail := by rw [hsplit]

/-- C3: the dedup check of `slack_events` processes a fresh event id (returns
    true and records it) and skips an already-recorded id (returns false,
    cache unchanged); a cache of at most 1000 entries still has at most 1000
    entries after any call; and after 1001 distinct ids have been fed in, the
    first-inserted id is no longer recognized as processed. -/
theorem c3_dedup (cache : List String) (eid : String) (ids : List String) :
    (eid ∉ cache → (dedupStep cache eid).1 = true ∧ eid ∈ (dedupStep cache eid).2)
      ∧ (eid ∈ cache → (dedupStep cache eid).1 = false ∧ (dedupStep cache eid).2 = cache)
      ∧ (cache.length ≤ 1000 → (dedupStep cache eid).2.length ≤ 1000)
      ∧ (ids.Nodup → ids.length = 1001 → ∀ a t, ids = a :: t → a ∉ dedupRun [] ids) := by
  refine ⟨?_, ?_, ?_, ?_⟩
  · intro hnm
    unfold dedupStep
    rw [if_neg hnm]
    by_cases hl : 1000 < (cache ++ [eid]).length
    · simp only [if_pos hl]
      refine ⟨trivial, ?_⟩
      cases cache with
      | nil => simp at hl
      | cons x xs => simp
    · simp only [if_neg hl]
      exact ⟨trivial, by simp⟩
  · intro hm
    unfold dedupStep
    rw [if_pos hm]
    exact ⟨rfl, rfl⟩
  · intro hlen
    unfold dedupStep
    by_cases hm : eid ∈ cache
    · rw [if_pos hm]; exact hlen
    · rw [if_neg hm]
      by_cases hl : 1000 < (cache ++ [eid]).length
      · simp only [hl, if_true]
        simp at hl ⊢
        omega
      · simp only [hl, if_false]
        simp at hl ⊢
        omega
  · intro hnd hlen a t hcons
    rw [dedupRun_evict ids hnd hlen, hcons]
    simp only [List.tail_cons]
    rw [hcons] at hnd
    exact (List.nodup_cons.mp hnd).1

lemma descIds_length : ∀ n, (descIds n).length = n := by
  intro n
  induction n with
  | zero => rfl
  | succ k ih => simp [descIds, ih]

lemma mem_descIds : ∀ n x, x ∈ descIds n → ∃ k, k < n ∧ x = idOf k := by
  intro n
  induction n with
  | zero => intro x h; cases h
  | succ m ih =>
    intro x h
    rcases List.mem_cons.mp h with h | h
    · exact ⟨m, Nat.lt_succ_self m, h⟩
    · obtain ⟨k, hk, hx⟩ := ih x h
      exact ⟨k, Nat.lt_succ_of_lt hk, hx⟩

lemma idOf_inj (m k : Nat) (h : idOf m = idOf k) : m = k := by
  have hd : (idOf m).data = (idOf k).data := by rw [h]
  simpa [idOf] using hd

lemma descIds_nodup : ∀ n, (descIds n).Nodup := by
  intro n
  induction n with
  | zero => exact List.nodup_nil
  | succ m ih =>
    refine List.nodup_cons.mpr ⟨?_, ih⟩
    intro hmem
    obtain ⟨k, hk, hx⟩ := mem_descIds m (idOf m) hmem
    exact absurd (idOf_inj m k hx) (Nat.ne_of_gt hk)

/-- Witness for C3 at concrete inputs: a fresh id is processed and recorded,
    a repeated id is skipped, the size bound holds, and after the 1001
    distinct ids of `descIds 1001` the first-inserted id `idOf 1000` is no
    longer recognized. -/
theorem c3_witness :
    (dedupStep ["a"] "b").1 = true ∧ "b" ∈ (dedupStep ["a"] "b").2
      ∧ (dedupStep ["a"] "a").1 = false ∧ (dedupStep ["a"] "a").2 = ["a"]
      ∧ (dedupStep ["a"] "b").2.length ≤ 1000
      ∧ idOf 1000 ∉ dedupRun [] (descIds 1001) := by
  have h1 := (c3_dedup ["a"] "b" []).1 (by decide)
  have h2 := (c3_dedup ["a"] "a" []).2.1 (by decide)
  have h3 := (c3_dedup ["a"] "b" []).2.2.1 (by decide)
  have h4 := (c3_dedup [] "" (descIds 1001)).2.2.2 (descIds_nodup 1001) (descIds_length 1001)
    (idOf 1000) (descIds 1000) rfl
  exact ⟨h1.1, h1.2, h2.1, h2.2, h3, h4⟩

lemma findIdx_lt_length {α : Type} (p : α → Bool) :
    ∀ (l : List α) (k : Nat), l.findIdx? p = some k → k < l.length := by
  intro l
  induction l with
  | nil => intro k h; simp [List.findIdx?] at h
  | cons x xs ih =>
    intro k h
    rw [List.findIdx?_cons] at h
    by_cases hp : p x
    · simp [hp] at h
      simp only [List.length_cons]
      omega
    · simp [hp] at h
      obtain ⟨j, hj, hk⟩ := h
      have := ih j hj
      simp only [List.length_cons]
      omega

lemma findFrom_ge (l : List Char) (c : Char) (i j : Nat) (h : findFrom l c i = some j) :
    i ≤ j := by
  unfold findFrom at h
  obtain ⟨k, _, hk⟩ := Option.map_eq_some'.mp h
  omega

lemma findFrom_lt_length (l : List Char) (c : Char) (i j : Nat)
    (h : findFrom l c i = some j) : j < l.length := by
  unfold findFrom at h
  obtain ⟨k, hk, hj⟩ := Option.map_eq_some'.mp h
  have := findIdx_lt_length _ _ _ hk
  rw [List.length_drop] at this
  omega

lemma adjustEnd_ge (text : List Char) (e : Nat) : e ≤ adjustEnd text e := by
  unfold adjustEnd
  split
  · split
    · next n hn _ => have := findFrom_ge text '\n' e n hn; omega
    · next n s hn hs =>
      have h1 := findFrom_ge text '\n' e n hn
      have h2 := findFrom_ge text ' ' e s hs
      split <;> omega
    · next s _ hs => have := findFrom_ge text ' ' e s hs; omega
    · exact le_rfl
  · exact le_rfl

lemma adjustEnd_le (text : List Char) (e : Nat) (h : e < text.length) :
    adjustEnd text e ≤ text.length := by
  unfold adjustEnd
  split
  · split
    · next n hn _ => have := findFrom_lt_length text '\n' e n hn; omega
    · next n s hn hs =>
      have h1 := findFrom_lt_length text '\n' e n hn
      have h2 := findFrom_lt_length text ' ' e s hs
      split <;> omega
    · next s _ hs => have := findFrom_lt_length text ' ' e s hs; omega
    · omega
  · omega

lemma listSlice_length (l : List Char) (a b : Nat) (hb : b ≤ l.length) (hab : a ≤ b) :
    (listSlice l a b).length = b - a := by
  simp only [listSlice, List.length_drop, List.length_take]
  omega

lemma chunkLoop_sound (text : List Char) (chunkSize overlap : Nat)
    (hov : overlap < chunkSize) :
    ∀ (fuel start : Nat), text.length - start < fuel →
    ∃ r, chunkLoop fuel text chunkSize overlap start = some r ∧
      ∀ i, start ≤ i → i < text.length →
        ∃ c ∈ r, ∃ o, c = listSlice text o (o + c.length) ∧ o ≤ i ∧ i < o + c.length := by
  intro fuel
  induction fuel with
  | zero => intro start h; omega
  | succ n ih =>
    intro start h
    by_cases hs : start < text.length
    · by_cases he : text.length ≤ start + chunkSize
      · refine ⟨[text.drop start], ?_, ?_⟩
        · simp [chunkLoop, hs, he]
        · intro i hi1 hi2
          refine ⟨text.drop start, List.mem_singleton.mpr rfl, start, ?_, hi1, ?_⟩
          · have hlen : (text.drop start).length = text.length - start := List.length_drop ..
            rw [hlen]
            have harith : start + (text.length - start) = text.length := by omega
            rw [harith]
            simp [listSlice, List.take_length]
          · have hlen : (text.drop start).length = text.length - start := List.length_drop ..
            rw [hlen]; omega
      · have he' : start + chunkSize < text.length := by omega
        set e2 := adjustEnd text (start + chunkSize) with he2
        have hge : start + chunkSize ≤ e2 := adjustEnd_ge text (start + chunkSize)
        have hle : e2 ≤ text.length := adjustEnd_le text (start + chunkSize) he'
        have hnext : text.length - (e2 - overlap) < n := by omega
        obtain ⟨rest, hrest, hcov⟩ := ih (e2 - overlap) hnext
        refine ⟨listSlice text start e2 :: rest, ?_, ?_⟩
        · simp only [chunkLoop, hs, if_true, he, if_false, ← he2, hrest]
        · intro i hi1 hi2
          by_cases hie : i < e2
          · refine ⟨listSlice text start e2, List.mem_cons_self .., start, ?_, hi1, ?_⟩
            · rw [listSlice_length text start e2 hle (by omega)]
              have harith : start + (e2 - start) = e2 := by omega
              rw [harith]
            · rw [listSlice_length text start e2 hle (by omega)]
              omega
          · obtain ⟨c, hc, o, hco, ho1, ho2⟩ := hcov i (by omega) hi2
            exact ⟨c, List.mem_cons_of_mem _ hc, o, hco, ho1, ho2⟩
    · refine ⟨[], ?_, ?_⟩
      · simp [chunkLoop, hs]
      · intro i hi1 hi2; omega

/-- C2: for every text and every `chunk_size > 0` and `overlap < chunk_size`,
    `chunk_text` terminates (returns a chunk list rather than diverging) and
    the chunks, each a slice of the text placed at its start offset, cover
    every character position of the text. -/
theorem c2_chunk_terminates_covers (text : List Char) (chunkSize overlap : Nat)
    (hcs : 0 < chunkSize) (hov : overlap < chunkSize) :
    ∃ chunks, chunk_text text chunkSize overlap = some chunks ∧
      ∀ i, i < text.length →
        ∃ c ∈ chunks, ∃ o, c = listSlice text o (o + c.length) ∧ o ≤ i ∧ i < o + c.length := by
  by_cases hlen : text.length ≤ chunkSize
  · refine ⟨[text], by simp [chunk_text, hlen], ?_⟩
    intro i hi
    refine ⟨text, List.mem_singleton.mpr rfl, 0, ?_, Nat.zero_le i, ?_⟩
    · simp [listSlice, List.take_length]
    · simpa using hi
  · obtain ⟨chunks, hch, hcov⟩ := chunkLoop_sound text chunkSize overlap hov
      (text.length + 1) 0 (by omega)
    refine ⟨chunks, ?_, fun i hi => hcov i (Nat.zero_le i) hi⟩
    simp only [chunk_text, hlen, if_false]
    exact hch

/-- Witness for C2 at a concrete input. -/
theorem c2_witness :
    ∃ chunks, chunk_text ['a', 'b', ' ', 'c', 'd'] 3 1 = some chunks ∧
      ∀ i, i < (['a', 'b', ' ', 'c', 'd'] : List Char).length →
        ∃ c ∈ chunks, ∃ o, c = listSlice ['a', 'b', ' ', 'c', 'd'] o (o + c.length)
          ∧ o ≤ i ∧ i < o + c.length :=
  c2_chunk_terminates_covers ['a', 'b', ' ', 'c', 'd'] 3 1 (by decide) (by decide)
